import Mathlib

/-!
# Verification of the beartest-vscode worker protocol and test-tree synchronizer

A shallow embedding, in Lean 4, of the core of the `beartest-vscode`
extension: the message-framing parsers of the two worker transports, the
worker's command handling, the protocol client's run/cancel handling, and
the test-tree synchronizer (test item registry plus event handlers).

Strings are modelled as `List Char`; the JavaScript string operations used
by the source (`indexOf`, `substring`, `split`, array index assignment,
`Map.get`/`Map.set`) are given explicit models below.  Effectful calls on
the VS Code API (`run.started`, `run.passed`, ...) are modelled as report
values returned by the handlers; the child process and timers are modelled
as effect descriptions.  A JavaScript runtime `TypeError` (property access
on `undefined`) is modelled with `Except`.
-/

/-! ## JavaScript string primitives -/

/-- Model of JS `String.prototype.substring(a, b)`: the two indices are
swapped when `a > b`, and both are clamped to the string length. -/
def jsSubstring (s : List Char) (a b : Nat) : List Char :=
  (s.take (max a b)).drop (min a b)

/-- Model of JS `haystack.indexOf(pat)` over `List Char`, returning the
first index at which `pat` occurs as a contiguous substring (JS returns
`-1` when absent; we return `none`). -/
def findSub (pat : List Char) : List Char → Option Nat
  | [] => if pat.isPrefixOf [] then some 0 else none
  | c :: s => if pat.isPrefixOf (c :: s) then some 0 else (findSub pat s).map (· + 1)

theorem findSub_nil_pat (s : List Char) : findSub [] s = some 0 := by
  cases s <;> simp [findSub, List.isPrefixOf]

theorem findSub_prefix {pat s : List Char} {i : Nat} (h : findSub pat s = some i) :
    pat <+: s.drop i := by
  induction s generalizing i with
  | nil =>
    unfold findSub at h
    split at h
    · rename_i hp
      cases h
      simpa using (List.isPrefixOf_iff_prefix.mp hp)
    · exact absurd h (by simp)
  | cons c s ih =>
    unfold findSub at h
    split at h
    · rename_i hp
      cases h
      simpa using (List.isPrefixOf_iff_prefix.mp hp)
    · rcases Option.map_eq_some'.mp h with ⟨i', hi', rfl⟩
      simpa using ih hi'

theorem findSub_le {pat s : List Char} {i : Nat} (h : findSub pat s = some i) :
    i + pat.length ≤ s.length := by
  induction s generalizing i with
  | nil =>
    unfold findSub at h
    split at h
    · rename_i hp
      cases h
      simpa using (List.isPrefixOf_iff_prefix.mp hp).length_le
    · exact absurd h (by simp)
  | cons c s ih =>
    unfold findSub at h
    split at h
    · rename_i hp
      cases h
      simpa using (List.isPrefixOf_iff_prefix.mp hp).length_le
    · rcases Option.map_eq_some'.mp h with ⟨i', hi', rfl⟩
      have := ih hi'
      simp only [List.length_cons]
      omega

theorem findSub_append {pat s : List Char} {i : Nat} (t : List Char)
    (h : findSub pat s = some i) : findSub pat (s ++ t) = some i := by
  induction s generalizing i with
  | nil =>
    unfold findSub at h
    split at h
    · rename_i hp
      cases h
      have : pat = [] := by simpa using (List.isPrefixOf_iff_prefix.mp hp)
      subst this
      simpa using findSub_nil_pat t
    · exact absurd h (by simp)
  | cons c s ih =>
    unfold findSub at h
    split at h
    · rename_i hp
      cases h
      have hp' : pat <+: (c :: s) ++ t :=
        (List.isPrefixOf_iff_prefix.mp hp).trans (List.prefix_append _ _)
      simp only [List.cons_append]
      unfold findSub
      rw [if_pos (List.isPrefixOf_iff_prefix.mpr (by simpa using hp'))]
    · rename_i hp
      rcases Option.map_eq_some'.mp h with ⟨i', hi', rfl⟩
      have hlen : pat.length ≤ s.length := by
        have := findSub_le hi'
        omega
      have hnp : ¬ pat.isPrefixOf (c :: (s ++ t)) = true := by
        intro hcontra
        apply hp
        have hpre : pat <+: c :: (s ++ t) := List.isPrefixOf_iff_prefix.mp hcontra
        have : pat = (c :: (s ++ t)).take pat.length := List.prefix_iff_eq_take.mp hpre
        have htake : (c :: (s ++ t)).take pat.length = (c :: s).take pat.length := by
          have : (c :: s) ++ t = c :: (s ++ t) := by simp
          rw [← this, List.take_append_of_le_length (by simp; omega)]
        refine List.isPrefixOf_iff_prefix.mpr ?_
        rw [this, htake]
        exact List.take_prefix _ _
      simp only [List.cons_append]
      unfold findSub
      rw [if_neg (by simpa using hnp)]
      rw [ih hi']
      rfl

/-! ## Frame parsers

Source: `src/protocol/BeartestProtocolClient.ts` (`parseProtocolMessages`,
delimiter-wrapped framing over stdout) and the socket protocol client
(`parseSocketMessages`, newline-delimited framing).  Both are pure
functions from a receive buffer to extracted messages plus the remaining
buffer.  `JSON.parse` inside a try/catch is modelled by a caller-supplied
`decode : List Char → Option α`; a frame whose body fails to decode is
skipped.  The `while` loops, which strictly shrink the buffer on every
iteration, are modelled with a fuel parameter instantiated at the buffer
length. -/

def PROTOCOL_START : List Char := "__BEARTEST_MESSAGE__".toList

def PROTOCOL_END : List Char := "__END__".toList

/-- Loop body of `parseProtocolMessages`, with fuel. -/
def parsePMGo (decode : List Char → Option α) : Nat → List Char → List α × List Char
  | 0, buf => ([], buf)
  | fuel + 1, buf =>
    match findSub PROTOCOL_START buf with
    | none => ([], buf)
    | some messageStart =>
      match findSub PROTOCOL_END (buf.drop messageStart) with
      | none => ([], buf)
      | some endRel =>
        let messageEnd := messageStart + endRel
        let messageJson := jsSubstring buf (messageStart + PROTOCOL_START.length) messageEnd
        let rest := buf.drop (messageEnd + PROTOCOL_END.length)
        let next := parsePMGo decode fuel rest
        ((match decode messageJson with
          | some m => m :: next.1
          | none => next.1), next.2)

/-- `parseProtocolMessages` of `BeartestProtocolClient.ts`: scan the buffer
for `__BEARTEST_MESSAGE__ ... __END__` frames, decode each body, drop
bodies that fail to decode, and return the unconsumed remainder. -/
def parseProtocolMessages (decode : List Char → Option α) (buf : List Char) :
    List α × List Char :=
  parsePMGo decode buf.length buf

/-- The newline delimiter of the socket framing scheme. -/
def newlineChar : Char := '\n'

/-- Model of JS whitespace as tested by `String.prototype.trim`
(restricted to the characters that can actually reach a socket line). -/
def jsIsWhitespace (c : Char) : Bool :=
  c = ' ' || c = '\t' || c = '\r' || c = '\n'

/-- Truthiness of `line.trim()`: true iff some character survives
trimming, i.e. the line has a non-whitespace character. -/
def jsTrimTruthy (line : List Char) : Bool :=
  line.any (fun c => ! jsIsWhitespace c)

/-- Loop body of `parseSocketMessages`, with fuel. -/
def parseSMGo (decode : List Char → Option α) : Nat → List Char → List α × List Char
  | 0, buf => ([], buf)
  | fuel + 1, buf =>
    match findSub [newlineChar] buf with
    | none => ([], buf)
    | some newlineIndex =>
      let line := jsSubstring buf 0 newlineIndex
      let rest := buf.drop (newlineIndex + 1)
      let next := parseSMGo decode fuel rest
      ((if jsTrimTruthy line then
          (match decode line with
           | some m => m :: next.1
           | none => next.1)
        else next.1), next.2)

/-- `parseSocketMessages` of the socket protocol client: split the buffer
at newlines, decode every complete non-blank line, drop lines that fail to
decode, and keep the trailing partial line as the remaining buffer. -/
def parseSocketMessages (decode : List Char → Option α) (buf : List Char) :
    List α × List Char :=
  parseSMGo decode buf.length buf

/-- Incremental use of `parseProtocolMessages`: feed chunks one at a time,
carrying the remaining buffer between chunks, accumulating the decoded
messages (exactly what the stdout `data` handler does with
`bufferState.stdout`). -/
def parsePMChunks (decode : List Char → Option α) (chunks : List (List Char)) :
    List α × List Char :=
  chunks.foldl
    (fun acc chunk =>
      let step := parseProtocolMessages decode (acc.2 ++ chunk)
      (acc.1 ++ step.1, step.2))
    ([], [])

/-- Incremental use of `parseSocketMessages`, as done by the socket `data`
handler with `bufferState.socket`. -/
def parseSMChunks (decode : List Char → Option α) (chunks : List (List Char)) :
    List α × List Char :=
  chunks.foldl
    (fun acc chunk =>
      let step := parseSocketMessages decode (acc.2 ++ chunk)
      (acc.1 ++ step.1, step.2))
    ([], [])

/-! ### Unfolding equations for the delimiter parser -/

theorem parsePMGo_nil (decode : List Char → Option α) :
    ∀ fuel, parsePMGo decode fuel [] = ([], [])
  | 0 => rfl
  | fuel + 1 => by
    have h : findSub PROTOCOL_START ([] : List Char) = none := by decide
    simp [parsePMGo, h]

theorem parsePMGo_start_none {decode : List Char → Option α} {buf : List Char}
    (h : findSub PROTOCOL_START buf = none) :
    ∀ fuel, parsePMGo decode fuel buf = ([], buf)
  | 0 => rfl
  | fuel + 1 => by simp [parsePMGo, h]

theorem parsePMGo_end_none {decode : List Char → Option α} {buf : List Char} {i : Nat}
    (h1 : findSub PROTOCOL_START buf = some i)
    (h2 : findSub PROTOCOL_END (buf.drop i) = none) :
    ∀ fuel, parsePMGo decode fuel buf = ([], buf)
  | 0 => rfl
  | fuel + 1 => by simp [parsePMGo, h1, h2]

theorem parsePM_rest_lt {buf : List Char} {i j : Nat}
    (h1 : findSub PROTOCOL_START buf = some i)
    (h2 : findSub PROTOCOL_END (buf.drop i) = some j) :
    (buf.drop (i + j + PROTOCOL_END.length)).length < buf.length := by
  have hS : PROTOCOL_START.length = 20 := by decide
  have hE : PROTOCOL_END.length = 7 := by decide
  have l1 := findSub_le h1
  have l2 := findSub_le h2
  simp only [List.length_drop] at l2 ⊢
  omega

theorem parsePMGo_fuel (decode : List Char → Option α) :
    ∀ fuel extra (buf : List Char), buf.length ≤ fuel →
      parsePMGo decode (fuel + extra) buf = parsePMGo decode fuel buf := by
  intro fuel
  induction fuel with
  | zero =>
    intro extra buf h
    have hb : buf = [] := List.length_eq_zero.mp (Nat.le_zero.mp h)
    subst hb
    simp [parsePMGo_nil]
  | succ n ih =>
    intro extra buf h
    have hadd : n + 1 + extra = (n + extra) + 1 := by omega
    rw [hadd]
    cases h1 : findSub PROTOCOL_START buf with
    | none => rw [parsePMGo_start_none h1, parsePMGo_start_none h1]
    | some i =>
      cases h2 : findSub PROTOCOL_END (buf.drop i) with
      | none => rw [parsePMGo_end_none h1 h2, parsePMGo_end_none h1 h2]
      | some j =>
        simp only [parsePMGo, h1, h2]
        have hlt := parsePM_rest_lt h1 h2
        rw [ih extra _ (by omega)]

theorem parseProtocolMessages_start_none {decode : List Char → Option α} {buf : List Char}
    (h : findSub PROTOCOL_START buf = none) :
    parseProtocolMessages decode buf = ([], buf) :=
  parsePMGo_start_none h _

theorem parseProtocolMessages_end_none {decode : List Char → Option α} {buf : List Char}
    {i : Nat} (h1 : findSub PROTOCOL_START buf = some i)
    (h2 : findSub PROTOCOL_END (buf.drop i) = none) :
    parseProtocolMessages decode buf = ([], buf) :=
  parsePMGo_end_none h1 h2 _

theorem parseProtocolMessages_step {decode : List Char → Option α} {buf : List Char}
    {i j : Nat} (h1 : findSub PROTOCOL_START buf = some i)
    (h2 : findSub PROTOCOL_END (buf.drop i) = some j) :
    parseProtocolMessages decode buf =
      (let next := parseProtocolMessages decode (buf.drop (i + j + PROTOCOL_END.length))
       ((match decode (jsSubstring buf (i + PROTOCOL_START.length) (i + j)) with
         | some m => m :: next.1
         | none => next.1), next.2)) := by
  have hS : PROTOCOL_START.length = 20 := by decide
  have hlen : 1 ≤ buf.length := by
    have := findSub_le h1
    omega
  obtain ⟨n, hn⟩ : ∃ n, buf.length = n + 1 := ⟨buf.length - 1, by omega⟩
  have hrest := parsePM_rest_lt h1 h2
  unfold parseProtocolMessages
  rw [hn]
  simp only [parsePMGo, h1, h2]
  have hle : (buf.drop (i + j + PROTOCOL_END.length)).length ≤ n := by omega
  have hsplit : n = (buf.drop (i + j + PROTOCOL_END.length)).length +
      (n - (buf.drop (i + j + PROTOCOL_END.length)).length) := by omega
  rw [hsplit, parsePMGo_fuel decode _ _ _ (le_refl _)]

/-- Appending more input to a buffer does not disturb the frames already
extractable from it: parsing `b ++ c` first yields everything `b` yields,
then continues on the carried remainder joined with `c`. -/
theorem parseProtocolMessages_append (decode : List Char → Option α) (b c : List Char) :
    parseProtocolMessages decode (b ++ c) =
      (let pb := parseProtocolMessages decode b
       let pc := parseProtocolMessages decode (pb.2 ++ c)
       (pb.1 ++ pc.1, pc.2)) := by
  suffices H : ∀ (n : Nat) (b : List Char), b.length ≤ n →
      parseProtocolMessages decode (b ++ c) =
        (let pb := parseProtocolMessages decode b
         let pc := parseProtocolMessages decode (pb.2 ++ c)
         (pb.1 ++ pc.1, pc.2)) from H b.length b (le_refl _)
  intro n
  induction n with
  | zero =>
    intro b hb
    have hbnil : b = [] := List.length_eq_zero.mp (Nat.le_zero.mp hb)
    subst hbnil
    simp [parseProtocolMessages, parsePMGo_nil]
  | succ n ih =>
    intro b hb
    cases h1 : findSub PROTOCOL_START b with
    | none =>
      rw [parseProtocolMessages_start_none h1]
      simp
    | some i =>
      cases h2 : findSub PROTOCOL_END (b.drop i) with
      | none =>
        rw [parseProtocolMessages_end_none h1 h2]
        simp
      | some j =>
        have hS : PROTOCOL_START.length = 20 := by decide
        have hE : PROTOCOL_END.length = 7 := by decide
        have l1 := findSub_le h1
        have l2 := findSub_le h2
        simp only [List.length_drop] at l2
        have hib : i ≤ b.length := by omega
        have hij : i + j + PROTOCOL_END.length ≤ b.length := by omega
        have h1' : findSub PROTOCOL_START (b ++ c) = some i := findSub_append c h1
        have hdropi : (b ++ c).drop i = b.drop i ++ c := List.drop_append_of_le_length hib
        have h2' : findSub PROTOCOL_END ((b ++ c).drop i) = some j := by
          rw [hdropi]
          exact findSub_append c h2
        rw [parseProtocolMessages_step h1' h2', parseProtocolMessages_step h1 h2]
        have hmax : max (i + PROTOCOL_START.length) (i + j) ≤ b.length :=
          max_le (by omega) (by omega)
        have hbody : jsSubstring (b ++ c) (i + PROTOCOL_START.length) (i + j) =
            jsSubstring b (i + PROTOCOL_START.length) (i + j) := by
          unfold jsSubstring
          rw [List.take_append_of_le_length hmax]
        have hrest : (b ++ c).drop (i + j + PROTOCOL_END.length) =
            b.drop (i + j + PROTOCOL_END.length) ++ c :=
          List.drop_append_of_le_length hij
        rw [hbody, hrest]
        have hrlen : (b.drop (i + j + PROTOCOL_END.length)).length ≤ n := by
          simp only [List.length_drop]
          omega
        rw [ih _ hrlen]
        cases decode (jsSubstring b (i + PROTOCOL_START.length) (i + j)) <;> simp

/-- The remainder left by the delimiter parser contains no further
complete frame: re-parsing it extracts nothing. -/
theorem parseProtocolMessages_residue (decode : List Char → Option α) (buf : List Char) :
    parseProtocolMessages decode (parseProtocolMessages decode buf).2 =
      ([], (parseProtocolMessages decode buf).2) := by
  suffices H : ∀ (n : Nat) (buf : List Char), buf.length ≤ n →
      parseProtocolMessages decode (parseProtocolMessages decode buf).2 =
        ([], (parseProtocolMessages decode buf).2) from H buf.length buf (le_refl _)
  intro n
  induction n with
  | zero =>
    intro buf hb
    have hbnil : buf = [] := List.length_eq_zero.mp (Nat.le_zero.mp hb)
    subst hbnil
    simp [parseProtocolMessages, parsePMGo_nil]
  | succ n ih =>
    intro buf hb
    cases h1 : findSub PROTOCOL_START buf with
    | none =>
      rw [parseProtocolMessages_start_none h1]
      exact parseProtocolMessages_start_none h1
    | some i =>
      cases h2 : findSub PROTOCOL_END (buf.drop i) with
      | none =>
        rw [parseProtocolMessages_end_none h1 h2]
        exact parseProtocolMessages_end_none h1 h2
      | some j =>
        rw [parseProtocolMessages_step h1 h2]
        have hlt := parsePM_rest_lt h1 h2
        exact ih _ (by omega)

theorem parsePMChunks_eq_batch (decode : List Char → Option α) (chunks : List (List Char)) :
    parsePMChunks decode chunks = parseProtocolMessages decode chunks.flatten := by
  suffices H : ∀ (chunks : List (List Char)) (ms : List α) (buf : List Char),
      parseProtocolMessages decode buf = ([], buf) →
      chunks.foldl
          (fun acc chunk =>
            let step := parseProtocolMessages decode (acc.2 ++ chunk)
            (acc.1 ++ step.1, step.2)) (ms, buf) =
        (let p := parseProtocolMessages decode (buf ++ chunks.flatten)
         (ms ++ p.1, p.2)) by
    have hnil : parseProtocolMessages decode ([] : List Char) = ([], []) := by
      simp [parseProtocolMessages, parsePMGo_nil]
    have := H chunks [] [] hnil
    simpa [parsePMChunks] using this
  intro chunks
  induction chunks with
  | nil =>
    intro ms buf hres
    simpa using congrArg (fun p => (ms ++ p.1, p.2)) hres.symm
  | cons ch rest ih =>
    intro ms buf hres
    simp only [List.foldl_cons, List.flatten]
    rw [ih (ms ++ (parseProtocolMessages decode (buf ++ ch)).1)
          (parseProtocolMessages decode (buf ++ ch)).2
          (parseProtocolMessages_residue decode (buf ++ ch))]
    have hassoc : buf ++ (ch ++ rest.flatten) = (buf ++ ch) ++ rest.flatten := by simp
    rw [hassoc, parseProtocolMessages_append decode (buf ++ ch) rest.flatten]
    simp

/-! ### Unfolding equations for the newline parser -/

theorem parseSMGo_nil (decode : List Char → Option α) :
    ∀ fuel, parseSMGo decode fuel [] = ([], [])
  | 0 => rfl
  | fuel + 1 => by
    have h : findSub [newlineChar] ([] : List Char) = none := by decide
    simp [parseSMGo, h]

theorem parseSMGo_none {decode : List Char → Option α} {buf : List Char}
    (h : findSub [newlineChar] buf = none) :
    ∀ fuel, parseSMGo decode fuel buf = ([], buf)
  | 0 => rfl
  | fuel + 1 => by simp [parseSMGo, h]

theorem parseSM_rest_lt {buf : List Char} {i : Nat}
    (h : findSub [newlineChar] buf = some i) :
    (buf.drop (i + 1)).length < buf.length := by
  have l := findSub_le h
  simp only [List.length_cons, List.length_nil] at l
  simp only [List.length_drop]
  omega

theorem parseSMGo_fuel (decode : List Char → Option α) :
    ∀ fuel extra (buf : List Char), buf.length ≤ fuel →
      parseSMGo decode (fuel + extra) buf = parseSMGo decode fuel buf := by
  intro fuel
  induction fuel with
  | zero =>
    intro extra buf h
    have hb : buf = [] := List.length_eq_zero.mp (Nat.le_zero.mp h)
    subst hb
    simp [parseSMGo_nil]
  | succ n ih =>
    intro extra buf h
    have hadd : n + 1 + extra = (n + extra) + 1 := by omega
    rw [hadd]
    cases h1 : findSub [newlineChar] buf with
    | none => rw [parseSMGo_none h1, parseSMGo_none h1]
    | some i =>
      simp only [parseSMGo, h1]
      have hlt := parseSM_rest_lt h1
      rw [ih extra _ (by omega)]

theorem parseSocketMessages_none {decode : List Char → Option α} {buf : List Char}
    (h : findSub [newlineChar] buf = none) :
    parseSocketMessages decode buf = ([], buf) :=
  parseSMGo_none h _

theorem parseSocketMessages_step {decode : List Char → Option α} {buf : List Char}
    {i : Nat} (h : findSub [newlineChar] buf = some i) :
    parseSocketMessages decode buf =
      (let next := parseSocketMessages decode (buf.drop (i + 1))
       ((if jsTrimTruthy (jsSubstring buf 0 i) then
           (match decode (jsSubstring buf 0 i) with
            | some m => m :: next.1
            | none => next.1)
         else next.1), next.2)) := by
  have hlen : 1 ≤ buf.length := by
    have := findSub_le h
    simp only [List.length_cons, List.length_nil] at this
    omega
  obtain ⟨n, hn⟩ : ∃ n, buf.length = n + 1 := ⟨buf.length - 1, by omega⟩
  have hrest := parseSM_rest_lt h
  unfold parseSocketMessages
  rw [hn]
  simp only [parseSMGo, h]
  have hle : (buf.drop (i + 1)).length ≤ n := by omega
  have hsplit : n = (buf.drop (i + 1)).length + (n - (buf.drop (i + 1)).length) := by omega
  rw [hsplit, parseSMGo_fuel decode _ _ _ (le_refl _)]

/-- Append-stability of the newline parser: parsing `b ++ c` yields the
lines of `b` first, then continues on the carried partial line plus `c`. -/
theorem parseSocketMessages_append (decode : List Char → Option α) (b c : List Char) :
    parseSocketMessages decode (b ++ c) =
      (let pb := parseSocketMessages decode b
       let pc := parseSocketMessages decode (pb.2 ++ c)
       (pb.1 ++ pc.1, pc.2)) := by
  suffices H : ∀ (n : Nat) (b : List Char), b.length ≤ n →
      parseSocketMessages decode (b ++ c) =
        (let pb := parseSocketMessages decode b
         let pc := parseSocketMessages decode (pb.2 ++ c)
         (pb.1 ++ pc.1, pc.2)) from H b.length b (le_refl _)
  intro n
  induction n with
  | zero =>
    intro b hb
    have hbnil : b = [] := List.length_eq_zero.mp (Nat.le_zero.mp hb)
    subst hbnil
    simp [parseSocketMessages, parseSMGo_nil]
  | succ n ih =>
    intro b hb
    cases h1 : findSub [newlineChar] b with
    | none =>
      rw [parseSocketMessages_none h1]
      simp
    | some i =>
      have l1 := findSub_le h1
      simp only [List.length_cons, List.length_nil] at l1
      have hib : i ≤ b.length := by omega
      have hi1 : i + 1 ≤ b.length := by omega
      have h1' : findSub [newlineChar] (b ++ c) = some i := findSub_append c h1
      rw [parseSocketMessages_step h1', parseSocketMessages_step h1]
      have hline : jsSubstring (b ++ c) 0 i = jsSubstring b 0 i := by
        unfold jsSubstring
        rw [List.take_append_of_le_length (by simpa using hib)]
      have hrest : (b ++ c).drop (i + 1) = b.drop (i + 1) ++ c :=
        List.drop_append_of_le_length hi1
      rw [hline, hrest]
      have hrlen : (b.drop (i + 1)).length ≤ n := by
        simp only [List.length_drop]
        omega
      rw [ih _ hrlen]
      by_cases ht : jsTrimTruthy (jsSubstring b 0 i) = true
      · simp only [ht, if_true]
        cases decode (jsSubstring b 0 i) <;> simp
      · simp only [eq_false_of_ne_true ht, if_false]
        simp

/-- The remainder left by the newline parser holds no further newline:
re-parsing it extracts nothing. -/
theorem parseSocketMessages_residue (decode : List Char → Option α) (buf : List Char) :
    parseSocketMessages decode (parseSocketMessages decode buf).2 =
      ([], (parseSocketMessages decode buf).2) := by
  suffices H : ∀ (n : Nat) (buf : List Char), buf.length ≤ n →
      parseSocketMessages decode (parseSocketMessages decode buf).2 =
        ([], (parseSocketMessages decode buf).2) from H buf.length buf (le_refl _)
  intro n
  induction n with
  | zero =>
    intro buf hb
    have hbnil : buf = [] := List.length_eq_zero.mp (Nat.le_zero.mp hb)
    subst hbnil
    simp [parseSocketMessages, parseSMGo_nil]
  | succ n ih =>
    intro buf hb
    cases h1 : findSub [newlineChar] buf with
    | none =>
      rw [parseSocketMessages_none h1]
      exact parseSocketMessages_none h1
    | some i =>
      rw [parseSocketMessages_step h1]
      have hlt := parseSM_rest_lt h1
      exact ih _ (by omega)

theorem parseSMChunks_eq_batch (decode : List Char → Option α) (chunks : List (List Char)) :
    parseSMChunks decode chunks = parseSocketMessages decode chunks.flatten := by
  suffices H : ∀ (chunks : List (List Char)) (ms : List α) (buf : List Char),
      parseSocketMessages decode buf = ([], buf) →
      chunks.foldl
          (fun acc chunk =>
            let step := parseSocketMessages decode (acc.2 ++ chunk)
            (acc.1 ++ step.1, step.2)) (ms, buf) =
        (let p := parseSocketMessages decode (buf ++ chunks.flatten)
         (ms ++ p.1, p.2)) by
    have hnil : parseSocketMessages decode ([] : List Char) = ([], []) := by
      simp [parseSocketMessages, parseSMGo_nil]
    have := H chunks [] [] hnil
    simpa [parseSMChunks] using this
  intro chunks
  induction chunks with
  | nil =>
    intro ms buf hres
    simpa using congrArg (fun p => (ms ++ p.1, p.2)) hres.symm
  | cons ch rest ih =>
    intro ms buf hres
    simp only [List.foldl_cons, List.flatten_cons]
    rw [ih (ms ++ (parseSocketMessages decode (buf ++ ch)).1)
          (parseSocketMessages decode (buf ++ ch)).2
          (parseSocketMessages_residue decode (buf ++ ch))]
    have hassoc : buf ++ (ch ++ rest.flatten) = (buf ++ ch) ++ rest.flatten := by simp
    rw [hassoc, parseSocketMessages_append decode (buf ++ ch) rest.flatten]
    simp

/-! ## Worker command handling

Source: `src/runner.js` (`handleRunCommand` inside `createCommandHandlers`)
and the stdout-variant runner script (`runTests`).  Both stream one `event`
response per yielded beartest event; on normal loop exit they send one
`complete` whose `success` is the negated cancellation flag; when the run
throws they send an `error` response followed by `complete` with
`success: false`. -/

/-- Responses sent from the runner to the extension, over a payload type
`ε` for embedded test-progress events. -/
inductive RunnerResponse (ε : Type) where
  | ready
  | event (data : ε)
  | complete (success : Bool)
  | error (message : String)
deriving DecidableEq

/-- How one `run` command's execution inside the worker went: the events
the beartest generator yielded (in order, exactly those forwarded before
the loop ended), and whether the loop finished (with the cancellation flag
as read when sending `complete`) or the generator threw. -/
inductive RunOutcome where
  | finished (cancelled : Bool)
  | threw (message : String)
deriving DecidableEq

structure RunExecution (ε : Type) where
  events : List ε
  outcome : RunOutcome

/-- `handleRunCommand` of `src/runner.js`: the full response sequence the
worker emits for one `run` command. -/
def handleRunCommand (r : RunExecution ε) : List (RunnerResponse ε) :=
  r.events.map RunnerResponse.event ++
    match r.outcome with
    | .finished cancelled => [RunnerResponse.complete (!cancelled)]
    | .threw m => [RunnerResponse.error m, RunnerResponse.complete false]

def countComplete (rs : List (RunnerResponse ε)) : Nat :=
  rs.countP fun m => match m with
    | .complete _ => true
    | _ => false

def countError (rs : List (RunnerResponse ε)) : Nat :=
  rs.countP fun m => match m with
    | .error _ => true
    | _ => false

def isEventResponse (m : RunnerResponse ε) : Bool :=
  match m with
  | .event _ => true
  | _ => false

/-! ## Protocol client commands

Source: `src/protocol/BeartestProtocolClient.ts` (`buildRunCommand`,
`buildCancelCommand`, `sendCommand`, the `ready` case of `handleMessages`,
and the `token.onCancellationRequested` handler of `runWithProtocol`). -/

inductive RunnerCommand where
  | run (files : List String) (only : Option (List String))
  | cancel
  | shutdown
deriving DecidableEq

/-- `buildRunCommand`: the `only` field is spread into the command only
when the filter is present and non-empty (`only && only.length > 0`). -/
def buildRunCommand (files : List String) (only : Option (List String)) : RunnerCommand :=
  RunnerCommand.run files
    (match only with
     | some l => if l.length > 0 then some l else none
     | none => none)

def buildCancelCommand : RunnerCommand := RunnerCommand.cancel

/-- The `only` field carried by a built run command. -/
def runCommandOnly (c : RunnerCommand) : Option (List String) :=
  match c with
  | .run _ only => only
  | _ => none

/-- Commands written to the worker while the client processes a list of
decoded responses: `handleMessages` sends `buildRunCommand` on every
`ready` response and sends nothing for the other response kinds. -/
def sentRunCommands (testFiles : List String) (only : Option (List String))
    (responses : List (RunnerResponse ε)) : List RunnerCommand :=
  responses.filterMap fun m =>
    match m with
    | .ready => some (buildRunCommand testFiles only)
    | _ => none

/-- `sendCommand`: throws when the channel is no longer writable. -/
def sendCommand (stdinWritable : Bool) (c : RunnerCommand) : Except String RunnerCommand :=
  if stdinWritable then .ok c else .error "Process stdin is not writable"

/-- Whether a promise callback ended by calling `resolve` or `reject`. -/
inductive PromiseOutcome where
  | resolved
  | rejected (message : String)
deriving DecidableEq

/-- Observable effects of the `token.onCancellationRequested` handler. -/
structure CancelEffects where
  sentCommands : List RunnerCommand
  graceTimerMs : Option Nat
  timerKillsProcess : Bool
  killedImmediately : Bool
deriving DecidableEq

/-- The cancellation handler of `runWithProtocol`: if `ready` was received
and stdin is writable, send `cancel` and schedule a 1000 ms timer whose
callback kills the child iff it is still alive; otherwise kill at once.
Either way the handler ends with `resolve()`.  `childKilledAtTimer` is the
`child.killed` flag observed when the grace timer fires. -/
def onCancellationRequested (isReady stdinWritable childKilledAtTimer : Bool) :
    Except String (CancelEffects × PromiseOutcome) :=
  if isReady && stdinWritable then
    match sendCommand stdinWritable buildCancelCommand with
    | .error e => .error e
    | .ok c =>
      .ok ({ sentCommands := [c], graceTimerMs := some 1000,
             timerKillsProcess := !childKilledAtTimer,
             killedImmediately := false }, PromiseOutcome.resolved)
  else
    .ok ({ sentCommands := [], graceTimerMs := none, timerKillsProcess := false,
           killedImmediately := true }, PromiseOutcome.resolved)

/-! ## Test item registry

Source: `src/testItemRegistry.ts` / `src/testItems/testItemRegistry.ts`
(the two files agree on everything embedded here).  VS Code `TestItem`
objects form a mutable object graph; we model it as an arena (`items`), a
`TestItem` being addressed by its index.  The `testItemData` `WeakMap`,
keyed by object identity, is modelled by storing the metadata inline in
the arena record (`data`), which is identity-keyed by construction.
`controller.items` (the root collection) is `rootRefs`; the
`testItemMap : Map<string, TestItem>` is an association list with
`Map.set` prepending (first match wins on `Map.get`). -/

inductive TestItemKind where
  | file
  | suite
  | test
deriving DecidableEq

/-- `TestItemData` of `types.ts` (field `type` is named `kind` here since
`type` is a Lean keyword). -/
structure TestItemData where
  kind : TestItemKind
  filePath : Option String
  fullName : String
  nestingLevel : Nat
  discovered : Bool
deriving DecidableEq

/-- One VS Code `TestItem` as the registry uses it, with its `testItemData`
metadata stored inline. -/
structure TestItem where
  id : String
  label : String
  uri : Option String
  parentRef : Option Nat
  childRefs : List Nat
  data : Option TestItemData
deriving DecidableEq

structure TestItemRegistry where
  items : List TestItem
  rootRefs : List Nat
  testItemMap : List (String × Nat)
deriving DecidableEq

/-- Placeholder record; only reachable through a dangling reference, which
cannot occur for references obtained from the registry operations. -/
def dummyTestItem : TestItem :=
  { id := "", label := "", uri := none, parentRef := none, childRefs := [], data := none }

def getItem (s : TestItemRegistry) (ref : Nat) : TestItem :=
  s.items.getD ref dummyTestItem

def mapGet (m : List (String × Nat)) (k : String) : Option Nat :=
  (m.find? fun e => e.1 == k).map (·.2)

def mapSet (m : List (String × Nat)) (k : String) (v : Nat) : List (String × Nat) :=
  (k, v) :: m

/-- `createTestId`: the identifier is the pure string
`parent.id ++ "::" ++ nesting ++ "::" ++ name`. -/
def createTestId (parentId : String) (name : String) (nesting : Nat) : String :=
  parentId ++ "::" ++ toString nesting ++ "::" ++ name

/-- `createOrGetTestItem`: compute the key, re-use the mapped item when the
key is present; otherwise create the item, store its metadata, append it to
the parent's children and register it in the map. -/
def createOrGetTestItem (s : TestItemRegistry) (parentRef : Nat) (name : String)
    (nesting : Nat) (testType : TestItemKind) : Nat × TestItemRegistry :=
  let parent := getItem s parentRef
  let testId := createTestId parent.id name nesting
  match mapGet s.testItemMap testId with
  | some ref => (ref, s)
  | none =>
    let ref := s.items.length
    let testItem : TestItem :=
      { id := testId, label := name, uri := parent.uri, parentRef := some parentRef,
        childRefs := [],
        data := some { kind := testType, filePath := none, fullName := name,
                       nestingLevel := nesting, discovered := true } }
    let items1 := s.items ++ [testItem]
    let items2 := items1.set parentRef { parent with childRefs := parent.childRefs ++ [ref] }
    (ref, { s with items := items2, testItemMap := mapSet s.testItemMap testId ref })

/-- A JavaScript runtime exception. -/
inductive JsError where
  | typeError
deriving DecidableEq

/-- `getTestItem`: looks the key up in the map.  When the caller passes
`suiteStack[nesting - 1]` and that slot is empty, `createTestId` evaluates
`parent.id` on `undefined`, which raises a `TypeError` at runtime. -/
def getTestItem (s : TestItemRegistry) (parentRef : Option Nat) (name : String)
    (nesting : Nat) : Except JsError (Option Nat) :=
  match parentRef with
  | none => .error JsError.typeError
  | some p => .ok (mapGet s.testItemMap (createTestId (getItem s p).id name nesting))

/-- Truthiness of an optional JS string (absent or empty is falsy). -/
def jsTruthyStr (x : Option String) : Bool :=
  match x with
  | none => false
  | some v => !(v == "")

/-- Search body of `findFileTestItem`: try each item of the collection in
order; an item matches when its metadata has `type === "file"` and
`filePath === fileName`; otherwise its children (when any) are searched
before moving to the next sibling.  Structural fuel stands in for the
source's recursion over the (acyclic) item tree. -/
def findFileTestItemGo (s : TestItemRegistry) (fileName : String) :
    Nat → List Nat → Option Nat
  | 0, _ => none
  | _ + 1, [] => none
  | fuel + 1, ref :: rest =>
    let item := getItem s ref
    if (item.data.map fun d => d.kind) == some TestItemKind.file &&
        (item.data.bind fun d => d.filePath) == some fileName then
      some ref
    else
      match (if item.childRefs.length > 0 then
               findFileTestItemGo s fileName fuel item.childRefs
             else none) with
      | some found => some found
      | none => findFileTestItemGo s fileName fuel rest

/-- Fuel that exceeds any possible traversal length in the arena. -/
def registryFuel (s : TestItemRegistry) : Nat :=
  2 * s.items.length + s.rootRefs.length + 2

/-- `findFileTestItem` over `controller.items`. -/
def findFileTestItem (s : TestItemRegistry) (fileName : String) : Option Nat :=
  findFileTestItemGo s fileName (registryFuel s) s.rootRefs

/-- `getFilePathForTestItem`: walk up the parent chain until an item with
file metadata and a truthy path is found. -/
def getFilePathForTestItemGo (s : TestItemRegistry) : Nat → Nat → Option String
  | 0, _ => none
  | fuel + 1, ref =>
    let item := getItem s ref
    if (item.data.map fun d => d.kind) == some TestItemKind.file &&
        jsTruthyStr (item.data.bind fun d => d.filePath) then
      item.data.bind fun d => d.filePath
    else
      match item.parentRef with
      | some p => getFilePathForTestItemGo s fuel p
      | none => none

def getFilePathForTestItem (s : TestItemRegistry) (ref : Nat) : Option String :=
  getFilePathForTestItemGo s (registryFuel s) ref

/-- `collectFilesFromItem` of `testItems/testItemRegistry.ts` (functional
variant): a file item returns `[...files, filePath]` when its path is not
already in the accumulator; otherwise each child is recursed on with the
*same* incoming accumulator and the child results are concatenated after
it (`return [...files, ...childFiles]`). -/
def collectFilesFromItemGo (s : TestItemRegistry) : Nat → Nat → List String → List String
  | 0, _, files => files
  | fuel + 1, ref, files =>
    let item := getItem s ref
    if (item.data.map fun d => d.kind) == some TestItemKind.file &&
        jsTruthyStr (item.data.bind fun d => d.filePath) then
      let fp := ((item.data.bind fun d => d.filePath).getD "")
      if files.contains fp then files else files ++ [fp]
    else
      files ++ (item.childRefs.map fun c => collectFilesFromItemGo s fuel c files).flatten

/-- `collectFilesFromItem` of `testRunner.ts` (class variant): pushes into
a shared mutable array guarded by `includes`, modelled by threading the
accumulator through the children in order. -/
def collectFilesFromItemClassGo (s : TestItemRegistry) : Nat → Nat → List String → List String
  | 0, _, files => files
  | fuel + 1, ref, files =>
    let item := getItem s ref
    if (item.data.map fun d => d.kind) == some TestItemKind.file &&
        jsTruthyStr (item.data.bind fun d => d.filePath) then
      let fp := ((item.data.bind fun d => d.filePath).getD "")
      if files.contains fp then files else files ++ [fp]
    else
      item.childRefs.foldl (fun fs c => collectFilesFromItemClassGo s fuel c fs) files

/-- A `vscode.TestRunRequest`, reduced to the only field the embedded
operations read.  `includeItems = some []` models a present-but-empty
`request.include` array (truthy in JS). -/
structure TestRunRequest where
  includeItems : Option (List Nat)

/-- `getTestFilesToRun` of `testItems/testItemRegistry.ts` (functional
variant).  With `request.include` present: folders (no metadata, some
children) contribute their collected files deduplicated into the result;
other items contribute their file path, deduplicated.  Without
`request.include`: every root is collected with
`files.push(...collectFilesFromItem(item, files))`, i.e. the accumulator
is both passed in and re-appended. -/
def getTestFilesToRunFunctional (s : TestItemRegistry) (request : TestRunRequest) :
    List String :=
  match request.includeItems with
  | some items =>
    items.foldl
      (fun files item =>
        let it := getItem s item
        if it.data == none && it.childRefs.length > 0 then
          let folderFiles := collectFilesFromItemGo s (registryFuel s) item []
          folderFiles.foldl (fun fs f => if fs.contains f then fs else fs ++ [f]) files
        else
          match getFilePathForTestItem s item with
          | some filePath => if files.contains filePath then files else files ++ [filePath]
          | none => files)
      []
  | none =>
    s.rootRefs.foldl
      (fun files r => files ++ collectFilesFromItemGo s (registryFuel s) r files) []

/-- `getTestFilesToRun` of `testRunner.ts` (class variant). -/
def getTestFilesToRunClass (s : TestItemRegistry) (request : TestRunRequest) :
    List String :=
  match request.includeItems with
  | some items =>
    items.foldl
      (fun files item =>
        match getFilePathForTestItem s item with
        | some filePath => if files.contains filePath then files else files ++ [filePath]
        | none => files)
      []
  | none =>
    s.rootRefs.foldl
      (fun files r => collectFilesFromItemClassGo s (registryFuel s) r files) []

/-- `buildTestPath`: walk up from the item to the file level, collecting
each truthy `fullName` with `unshift`. -/
def buildTestPathGo (s : TestItemRegistry) : Nat → Option Nat → List String → List String
  | 0, _, path => path
  | _ + 1, none, path => path
  | fuel + 1, some ref, path =>
    let item := getItem s ref
    match item.data with
    | some d =>
      if d.kind == TestItemKind.file then path
      else buildTestPathGo s fuel item.parentRef (if d.fullName == "" then path else d.fullName :: path)
    | none => buildTestPathGo s fuel item.parentRef path

def buildTestPath (s : TestItemRegistry) (ref : Nat) : List String :=
  buildTestPathGo s (registryFuel s) (some ref) []

/-- Predicate used by `buildOnlyFilter`: `data?.type !== "file"` (an item
without metadata also satisfies it). -/
def isNonFileItem (s : TestItemRegistry) (ref : Nat) : Bool :=
  !(((getItem s ref).data.map fun d => d.kind) == some TestItemKind.file)

/-- `buildOnlyFilter` of `testItems/testItemRegistry.ts`: no filter when
nothing is explicitly included or only files are included; otherwise the
ancestor-name path of the first included non-file item. -/
def buildOnlyFilter (s : TestItemRegistry) (request : TestRunRequest) :
    Option (List String) :=
  match request.includeItems with
  | none => none
  | some items =>
    if items.length = 0 then none
    else if items.any (isNonFileItem s) then
      match items.find? (isNonFileItem s) with
      | some firstNestedItem => some (buildTestPath s firstNestedItem)
      | none => none
    else none

/-! ## Test tree synchronizer

Source: `src/events/eventHandlers.ts` (the functional `handleTestStart`,
`handleTestPass`, `handleTestFail`, dispatched by `handleBeartestEvent`),
with the class variant of `handleTestPass` from `testRunner.ts` also
embedded for comparison.  Reporting calls on the `vscode.TestRun`
(`started`, `passed`, `skipped`, `failed`) are modelled as report values.
`parseStackTrace` is presentation-only stack-frame-to-editor-location
mapping (out of the specified core); the model records the stack string
the handler feeds to it. -/

inductive BeartestTestType where
  | suite
  | test
deriving DecidableEq

/-- The `cause` value carried by a failing test's error.
`isErrorInstance` records whether the value passes `instanceof Error`
(a JSON-deserialized cause is a plain object and does not). -/
structure JsCause where
  isErrorInstance : Bool
  message : String
deriving DecidableEq

/-- The `details.error` value of a `test:fail` event; an empty `message`
models an absent/falsy message. -/
structure JsErrorValue where
  message : String
  stack : Option String
  cause : Option JsCause
deriving DecidableEq

structure TestStartData where
  name : String
  nesting : Nat
  testType : Option BeartestTestType
deriving DecidableEq

structure TestPassData where
  name : String
  nesting : Nat
  testType : Option BeartestTestType
  skip : Bool
  duration_ms : Nat
deriving DecidableEq

structure TestFailData where
  name : String
  nesting : Nat
  testType : Option BeartestTestType
  skip : Bool
  duration_ms : Nat
  error : JsErrorValue
deriving DecidableEq

inductive BeartestEvent where
  | start (data : TestStartData)
  | pass (data : TestPassData)
  | fail (data : TestFailData)
deriving DecidableEq

/-- A `vscode.TestMessage` as built by `handleTestFail`: the displayed
message, plus the stack string handed to `parseStackTrace` (when any). -/
structure TestMessageW where
  message : String
  stackSource : Option String
deriving DecidableEq

/-- One status report made on the active `vscode.TestRun`. -/
inductive RunReport where
  | started (ref : Nat)
  | passed (ref : Nat) (duration : Nat)
  | skipped (ref : Nat)
  | failed (ref : Nat) (message : TestMessageW) (duration : Nat)
deriving DecidableEq

/-- The synchronizer's per-run state: the shared registry and the
`suiteStack` array (JS array with holes: absent slots read `undefined`). -/
structure SyncState where
  reg : TestItemRegistry
  suiteStack : List (Option Nat)
deriving DecidableEq

def stackRead (st : List (Option Nat)) (i : Nat) : Option Nat :=
  st.getD i none

/-- JS array index assignment `st[i] = v`, creating holes as needed. -/
def stackWrite (st : List (Option Nat)) (i : Nat) (v : Nat) : List (Option Nat) :=
  if i < st.length then st.set i (some v)
  else st ++ List.replicate (i - st.length) none ++ [some v]

/-- `String(error)` applied to a JSON-deserialized plain error object. -/
def jsStringOfError (_error : JsErrorValue) : String := "[object Object]"

/-- The message-extraction lines of `handleTestFail`:
`let errorMessage = error.message || String(error);` then prefer
`error.cause.message` when `error.cause && error.cause instanceof Error`. -/
def extractErrorMessage (error : JsErrorValue) : String :=
  let errorMessage := if error.message == "" then jsStringOfError error else error.message
  match error.cause with
  | some c => if c.isErrorInstance then c.message else errorMessage
  | none => errorMessage

/-- The `vscode.TestMessage` built by `handleTestFail`: displayed message
from `extractErrorMessage`; `stackTrace` is set from `error.stack` when
present. -/
def buildTestMessage (error : JsErrorValue) : TestMessageW :=
  { message := extractErrorMessage error, stackSource := error.stack }

/-- `handleTestStart` (functional variant): nesting 0 resolves the file
root by name and installs it as `suiteStack[0]`; deeper starts resolve the
parent from `suiteStack[nesting - 1]` (warn-and-ignore when absent),
create or re-use the keyed item, and install it at `suiteStack[nesting]`
only when the event declares a suite. -/
def handleTestStart (st : SyncState) (data : TestStartData) : SyncState × List RunReport :=
  if data.nesting = 0 then
    match findFileTestItem st.reg data.name with
    | some fileItem =>
      ({ st with suiteStack := stackWrite st.suiteStack 0 fileItem },
       [RunReport.started fileItem])
    | none => (st, [])
  else
    match stackRead st.suiteStack (data.nesting - 1) with
    | none => (st, [])
    | some parent =>
      let created := createOrGetTestItem st.reg parent data.name data.nesting
        (if data.testType = some BeartestTestType.suite then TestItemKind.suite
         else TestItemKind.test)
      let stack' :=
        if data.testType = some BeartestTestType.suite then
          stackWrite st.suiteStack data.nesting created.1
        else st.suiteStack
      ({ reg := created.2, suiteStack := stack' }, [RunReport.started created.1])

/-- `handleTestPass` (functional variant): nesting 0 resolves the file
root by name, ignoring the stack; deeper passes resolve through
`getTestItem` with `suiteStack[nesting - 1]` as parent — raising the
modelled `TypeError` when that slot is empty — and warn-and-ignore when
the key has no mapped item. -/
def handleTestPass (st : SyncState) (data : TestPassData) :
    Except JsError (SyncState × List RunReport) :=
  if data.nesting = 0 then
    match findFileTestItem st.reg data.name with
    | some fileItem =>
      .ok (st, [if data.skip then RunReport.skipped fileItem
                else RunReport.passed fileItem data.duration_ms])
    | none => .ok (st, [])
  else
    match getTestItem st.reg (stackRead st.suiteStack (data.nesting - 1))
        data.name data.nesting with
    | .error e => .error e
    | .ok none => .ok (st, [])
    | .ok (some testItem) =>
      .ok (st, [if data.skip then RunReport.skipped testItem
                else RunReport.passed testItem data.duration_ms])

/-- `handleTestFail` (functional variant); resolution is identical to
`handleTestPass`, and the report is always `failed` with the extracted
message and the reported duration. -/
def handleTestFail (st : SyncState) (data : TestFailData) :
    Except JsError (SyncState × List RunReport) :=
  if data.nesting = 0 then
    match findFileTestItem st.reg data.name with
    | some fileItem =>
      .ok (st, [RunReport.failed fileItem (buildTestMessage data.error) data.duration_ms])
    | none => .ok (st, [])
  else
    match getTestItem st.reg (stackRead st.suiteStack (data.nesting - 1))
        data.name data.nesting with
    | .error e => .error e
    | .ok none => .ok (st, [])
    | .ok (some testItem) =>
      .ok (st, [RunReport.failed testItem (buildTestMessage data.error) data.duration_ms])

/-- `handleTestPass` of the class variant (`testRunner.ts`): the node is
`suiteStack[nesting]` for every nesting, warn-and-ignore when empty. -/
def handleTestPassClass (st : SyncState) (data : TestPassData) : SyncState × List RunReport :=
  match stackRead st.suiteStack data.nesting with
  | none => (st, [])
  | some testItem =>
    (st, [if data.skip then RunReport.skipped testItem
          else RunReport.passed testItem data.duration_ms])

/-- `handleBeartestEvent` (functional dispatcher). -/
def handleBeartestEvent (st : SyncState) (event : BeartestEvent) :
    Except JsError (SyncState × List RunReport) :=
  match event with
  | .start d => .ok (handleTestStart st d)
  | .pass d => handleTestPass st d
  | .fail d => handleTestFail st d

/-- Applying an ordered event stream; an event whose handler raises leaves
the mutable state as it was (the exception escapes the apply call, and the
next delivered event continues from the same state). -/
def applyEvents (st : SyncState) (events : List BeartestEvent) : SyncState × List RunReport :=
  events.foldl
    (fun acc ev =>
      match handleBeartestEvent acc.1 ev with
      | .ok (st', rs) => (st', acc.2 ++ rs)
      | .error _ => acc)
    (st, [])

instance {ε α : Type} [DecidableEq ε] [DecidableEq α] : DecidableEq (Except ε α) := fun a b =>
  match a, b with
  | .ok x, .ok y =>
    match decEq x y with
    | isTrue h => isTrue (h ▸ rfl)
    | isFalse h => isFalse fun hc => h (Except.ok.inj hc)
  | .ok _, .error _ => isFalse fun hc => Except.noConfusion hc
  | .error _, .ok _ => isFalse fun hc => Except.noConfusion hc
  | .error x, .error y =>
    match decEq x y with
    | isTrue h => isTrue (h ▸ rfl)
    | isFalse h => isFalse fun hc => h (Except.error.inj hc)

/-! ## Concrete fixtures used by counterexamples and witnesses -/

/-- A discovered file root with path and name `"a"`. -/
def fileItemA : TestItem :=
  { id := "f0", label := "a", uri := some "a", parentRef := none, childRefs := [],
    data := some { kind := TestItemKind.file, filePath := some "a", fullName := "a",
                   nestingLevel := 0, discovered := true } }

/-- A folder item: present in the tree, no `testItemData`. -/
def folderItem : TestItem :=
  { id := "dir", label := "dir", uri := none, parentRef := none, childRefs := [2],
    data := none }

/-- A discovered file root with path and name `"b"`, inside the folder. -/
def fileItemB : TestItem :=
  { id := "f2", label := "b", uri := some "b", parentRef := some 1, childRefs := [],
    data := some { kind := TestItemKind.file, filePath := some "b", fullName := "b",
                   nestingLevel := 0, discovered := true } }

/-- Registry holding only the file root `"a"`. -/
def regOneFile : TestItemRegistry :=
  { items := [fileItemA], rootRefs := [0], testItemMap := [] }

/-- Registry with two roots: the file `"a"` and a folder containing the
file `"b"`. -/
def regFileAndFolder : TestItemRegistry :=
  { items := [fileItemA, folderItem, fileItemB], rootRefs := [0, 1], testItemMap := [] }

/-- Fresh synchronizer state over `regOneFile` (empty ancestor stack). -/
def syncStart : SyncState := { reg := regOneFile, suiteStack := [] }

/-- A stand-in body decoder for concrete parsing checks: accepts exactly
the bodies starting with `k`. -/
def decodeFixture : List Char → Option String := fun body =>
  if body.head? = some 'k' then some (String.mk body) else none

/-- Wrap a body in the stdout protocol delimiters. -/
def frameFixture (body : String) : List Char :=
  PROTOCOL_START ++ body.toList ++ PROTOCOL_END

/-! ## Claim theorems -/

/-- C3: For every sequence of framed messages and every partition of the
byte stream into chunks, feeding the chunks one at a time through the
frame parser while carrying the remaining buffer yields exactly the same
decoded messages (and remaining buffer) as parsing the concatenated stream
at once — for the delimiter scheme and for the newline scheme alike.  The
two closing conjuncts exhibit the claimed consequences concretely: a frame
whose body fails to decode is dropped without blocking later frames, and a
frame split across two chunks is reassembled. -/
theorem chunked_frame_parsing_agrees_with_batch :
    (∀ (α : Type) (decode : List Char → Option α) (chunks : List (List Char)),
        parsePMChunks decode chunks = parseProtocolMessages decode chunks.flatten) ∧
    (∀ (α : Type) (decode : List Char → Option α) (chunks : List (List Char)),
        parseSMChunks decode chunks = parseSocketMessages decode chunks.flatten) ∧
    (parseProtocolMessages decodeFixture
        (frameFixture "k1" ++ frameFixture "bad" ++ frameFixture "k2")).1 = ["k1", "k2"] ∧
    parsePMChunks decodeFixture
        [frameFixture "k1" ++ PROTOCOL_START.take 5,
         PROTOCOL_START.drop 5 ++ "k3".toList ++ PROTOCOL_END] =
      (["k1", "k3"], []) := by
  refine ⟨fun α => parsePMChunks_eq_batch, fun α => parseSMChunks_eq_batch, ?_, ?_⟩ <;> decide

/-- C2 counterexample: when the run's event loop throws, `handleRunCommand`
emits an `error` response *and then also* a `complete` response — two
terminal responses for one run command, refuting "never both". -/
theorem worker_error_path_emits_both_terminals :
    handleRunCommand (ε := Unit) { events := [], outcome := RunOutcome.threw "boom" } =
      [RunnerResponse.error "boom", RunnerResponse.complete false] ∧
    countError (handleRunCommand (ε := Unit)
      { events := [], outcome := RunOutcome.threw "boom" }) = 1 ∧
    countComplete (handleRunCommand (ε := Unit)
      { events := [], outcome := RunOutcome.threw "boom" }) = 1 := by
  refine ⟨rfl, rfl, rfl⟩

/-- C2 (amended): for every handled run command the worker emits exactly
one `complete`, as the final response, after all `event` responses; its
`success` is true iff the run finished without throwing and without
cancellation.  On the throwing path exactly one `error` response precedes
the `complete`; on the non-throwing path no `error` is emitted. -/
theorem worker_emits_single_complete_terminal (ε : Type) (r : RunExecution ε) :
    countComplete (handleRunCommand r) = 1 ∧
    (handleRunCommand r).getLast? =
      some (RunnerResponse.complete
        (match r.outcome with
         | RunOutcome.finished cancelled => !cancelled
         | RunOutcome.threw _ => false)) ∧
    countError (handleRunCommand r) =
      (match r.outcome with
       | RunOutcome.finished _ => 0
       | RunOutcome.threw _ => 1) ∧
    (handleRunCommand r).takeWhile isEventResponse = r.events.map RunnerResponse.event := by
  obtain ⟨events, outcome⟩ := r
  have hev : ∀ (rest : List (RunnerResponse ε)), rest.takeWhile isEventResponse = [] →
      ((events.map RunnerResponse.event) ++ rest).takeWhile isEventResponse =
        events.map RunnerResponse.event := by
    intro rest hrest
    induction events with
    | nil => simpa using hrest
    | cons e es ih => simp [List.takeWhile_cons, isEventResponse, ih]
  have hcount : ∀ (p : RunnerResponse ε → Bool), (∀ d, p (RunnerResponse.event d) = false) →
      ∀ (rest : List (RunnerResponse ε)),
        ((events.map RunnerResponse.event) ++ rest).countP p = rest.countP p := by
    intro p hp rest
    induction events with
    | nil => simp
    | cons e es ih => simpa [List.countP_cons, hp] using ih
  cases outcome with
  | finished cancelled =>
    refine ⟨?_, ?_, ?_, ?_⟩
    · simpa [handleRunCommand, countComplete] using
        hcount _ (fun _ => rfl) [RunnerResponse.complete (!cancelled)]
    · simp [handleRunCommand]
    · simpa [handleRunCommand, countError] using
        hcount _ (fun _ => rfl) [RunnerResponse.complete (!cancelled)]
    · exact hev _ rfl
  | threw m =>
    refine ⟨?_, ?_, ?_, ?_⟩
    · simpa [handleRunCommand, countComplete] using
        hcount _ (fun _ => rfl) [RunnerResponse.error m, RunnerResponse.complete false]
    · simp [handleRunCommand]
    · simpa [handleRunCommand, countError] using
        hcount _ (fun _ => rfl) [RunnerResponse.error m, RunnerResponse.complete false]
    · exact hev _ rfl

/-- C7: the cancellation handler always ends by resolving the run promise
(never rejecting); when `ready` was received and the channel is writable
it sends exactly one `cancel` command and schedules a 1000 ms grace timer
whose callback kills the process iff it is still alive, with no immediate
kill; otherwise it sends nothing and kills the process immediately. -/
theorem cancellation_always_resolves_with_grace_or_immediate_kill :
    ∀ (isReady stdinWritable childKilledAtTimer : Bool),
      onCancellationRequested isReady stdinWritable childKilledAtTimer =
        .ok
          ((if isReady && stdinWritable then
              { sentCommands := [buildCancelCommand], graceTimerMs := some 1000,
                timerKillsProcess := !childKilledAtTimer, killedImmediately := false }
            else
              { sentCommands := [], graceTimerMs := none, timerKillsProcess := false,
                killedImmediately := true }),
           PromiseOutcome.resolved) := by
  decide

theorem mapGet_mapSet_self (m : List (String × Nat)) (k : String) (v : Nat) :
    mapGet (mapSet m k v) k = some v := by
  simp [mapGet, mapSet, List.find?]

theorem getItem_eq_getElem? (s : TestItemRegistry) (ref : Nat) :
    getItem s ref = (s.items[ref]?).getD dummyTestItem := by
  simp [getItem, List.getD]

/-- C4: a second `start` with the identical (parent, nesting, name) key
finds the existing entry in the identity index and returns the same item;
it changes neither the tree nor the index; the identifier under which the
item is registered is the pure function `parent.id ++ "::" ++ nesting ++
"::" ++ name`; and one application grows the arena by at most one item.
`hwf` states that the identity index maps each key to an item carrying
that key as its id, which holds for every registry the operations build. -/
theorem repeated_start_key_creates_at_most_one_item
    (s : TestItemRegistry) (parentRef : Nat) (name : String) (nesting : Nat)
    (testType : TestItemKind)
    (hparent : parentRef < s.items.length)
    (hwf : ∀ k r, mapGet s.testItemMap k = some r → (getItem s r).id = k) :
    (createOrGetTestItem (createOrGetTestItem s parentRef name nesting testType).2
        parentRef name nesting testType).1 =
      (createOrGetTestItem s parentRef name nesting testType).1 ∧
    (createOrGetTestItem (createOrGetTestItem s parentRef name nesting testType).2
        parentRef name nesting testType).2 =
      (createOrGetTestItem s parentRef name nesting testType).2 ∧
    (getItem (createOrGetTestItem s parentRef name nesting testType).2
        (createOrGetTestItem s parentRef name nesting testType).1).id =
      createTestId (getItem s parentRef).id name nesting ∧
    (createOrGetTestItem s parentRef name nesting testType).2.items.length ≤
      s.items.length + 1 := by
  cases h : mapGet s.testItemMap (createTestId (getItem s parentRef).id name nesting) with
  | some r =>
    have hfirst : createOrGetTestItem s parentRef name nesting testType = (r, s) := by
      unfold createOrGetTestItem
      simp only [h]
    refine ⟨?_, ?_, ?_, ?_⟩
    · rw [hfirst]
      show (createOrGetTestItem s parentRef name nesting testType).1 = r
      rw [hfirst]
    · rw [hfirst]
      show (createOrGetTestItem s parentRef name nesting testType).2 = s
      rw [hfirst]
    · rw [hfirst]
      show (getItem s r).id = createTestId (getItem s parentRef).id name nesting
      exact hwf _ r h
    · rw [hfirst]
      show s.items.length ≤ s.items.length + 1
      omega
  | none =>
    have e1 : (createOrGetTestItem s parentRef name nesting testType).1 = s.items.length := by
      unfold createOrGetTestItem
      simp only [h]
    have e2map : (createOrGetTestItem s parentRef name nesting testType).2.testItemMap =
        mapSet s.testItemMap (createTestId (getItem s parentRef).id name nesting)
          s.items.length := by
      unfold createOrGetTestItem
      simp only [h]
    have e2len : (createOrGetTestItem s parentRef name nesting testType).2.items.length =
        s.items.length + 1 := by
      unfold createOrGetTestItem
      simp only [h]
      simp
    have eparent : getItem (createOrGetTestItem s parentRef name nesting testType).2
        parentRef =
        { getItem s parentRef with
            childRefs := (getItem s parentRef).childRefs ++ [s.items.length] } := by
      unfold createOrGetTestItem
      simp only [h]
      rw [getItem_eq_getElem?]
      show ((((s.items ++ [_]).set parentRef _))[parentRef]?).getD dummyTestItem = _
      rw [List.getElem?_set_self (by simp; omega)]
      rfl
    have enew : (getItem (createOrGetTestItem s parentRef name nesting testType).2
        s.items.length).id = createTestId (getItem s parentRef).id name nesting := by
      unfold createOrGetTestItem
      simp only [h]
      rw [getItem_eq_getElem?]
      show (((((s.items ++ [_]).set parentRef _))[s.items.length]?).getD dummyTestItem).id = _
      rw [List.getElem?_set_ne (by omega), List.getElem?_concat_length]
      rfl
    obtain ⟨s2, hs2⟩ : ∃ s2, (createOrGetTestItem s parentRef name nesting testType).2 = s2 :=
      ⟨_, rfl⟩
    rw [hs2] at e2map e2len eparent enew ⊢
    have hkeyid : (getItem s2 parentRef).id = (getItem s parentRef).id := by
      rw [eparent]
    have hget2 : mapGet s2.testItemMap
        (createTestId (getItem s2 parentRef).id name nesting) = some s.items.length := by
      rw [hkeyid, e2map, mapGet_mapSet_self]
    have hsecond : createOrGetTestItem s2 parentRef name nesting testType =
        (s.items.length, s2) := by
      unfold createOrGetTestItem
      simp only [hget2]
    refine ⟨?_, ?_, ?_, ?_⟩
    · rw [hsecond, e1]
    · rw [hsecond]
    · rw [e1, enew]
    · rw [e2len]

theorem repeated_start_key_creates_at_most_one_item_witness :
    (createOrGetTestItem (createOrGetTestItem regOneFile 0 "x" 1 TestItemKind.suite).2
        0 "x" 1 TestItemKind.suite).1 =
      (createOrGetTestItem regOneFile 0 "x" 1 TestItemKind.suite).1 ∧
    (createOrGetTestItem (createOrGetTestItem regOneFile 0 "x" 1 TestItemKind.suite).2
        0 "x" 1 TestItemKind.suite).2 =
      (createOrGetTestItem regOneFile 0 "x" 1 TestItemKind.suite).2 ∧
    (getItem (createOrGetTestItem regOneFile 0 "x" 1 TestItemKind.suite).2
        (createOrGetTestItem regOneFile 0 "x" 1 TestItemKind.suite).1).id =
      createTestId (getItem regOneFile 0).id "x" 1 ∧
    (createOrGetTestItem regOneFile 0 "x" 1 TestItemKind.suite).2.items.length ≤
      regOneFile.items.length + 1 :=
  repeated_start_key_creates_at_most_one_item regOneFile 0 "x" 1 TestItemKind.suite
    (by decide)
    (by
      intro k r hkr
      simp [mapGet, regOneFile, List.find?] at hkr)

def isReadyResponse (m : RunnerResponse ε) : Bool :=
  match m with
  | .ready => true
  | _ => false

theorem sentRunCommands_eq_nil {ε : Type} (files : List String)
    (only : Option (List String)) :
    ∀ (responses : List (RunnerResponse ε)),
      responses.countP isReadyResponse = 0 → sentRunCommands files only responses = []
  | [], _ => rfl
  | m :: rest, h => by
    cases m with
    | ready =>
      simp only [List.countP_cons, isReadyResponse] at h
      rw [if_pos trivial] at h
      omega
    | event d =>
      simp only [List.countP_cons, isReadyResponse] at h
      rw [if_neg (by simp)] at h
      simpa [sentRunCommands, List.filterMap_cons] using
        sentRunCommands_eq_nil files only rest (by omega)
    | complete success =>
      simp only [List.countP_cons, isReadyResponse] at h
      rw [if_neg (by simp)] at h
      simpa [sentRunCommands, List.filterMap_cons] using
        sentRunCommands_eq_nil files only rest (by omega)
    | error msg =>
      simp only [List.countP_cons, isReadyResponse] at h
      rw [if_neg (by simp)] at h
      simpa [sentRunCommands, List.filterMap_cons] using
        sentRunCommands_eq_nil files only rest (by omega)

/-- C5: (1) while the client processes a response list containing exactly
one `ready`, exactly one `run` command is sent, built by
`buildRunCommand`; (2) the sent run command carries an `only` field iff a
non-file item was explicitly included and the ancestor-name path built
for the first such item is non-empty; (3) in that case the field is
exactly that path; (4) a built run command never carries an empty `only`
array. -/
theorem single_run_command_with_only_field_iff_nested_selection :
    (∀ (ε : Type) (files : List String) (only : Option (List String))
        (responses : List (RunnerResponse ε)),
        responses.countP isReadyResponse = 1 →
        sentRunCommands files only responses = [buildRunCommand files only]) ∧
    (∀ (s : TestItemRegistry) (request : TestRunRequest) (files : List String),
        runCommandOnly (buildRunCommand files (buildOnlyFilter s request)) ≠ none ↔
        ∃ items firstNestedItem, request.includeItems = some items ∧
          items.find? (isNonFileItem s) = some firstNestedItem ∧
          buildTestPath s firstNestedItem ≠ []) ∧
    (∀ (s : TestItemRegistry) (request : TestRunRequest) (files : List String)
        (items : List Nat) (firstNestedItem : Nat),
        request.includeItems = some items →
        items.find? (isNonFileItem s) = some firstNestedItem →
        buildTestPath s firstNestedItem ≠ [] →
        runCommandOnly (buildRunCommand files (buildOnlyFilter s request)) =
          some (buildTestPath s firstNestedItem)) ∧
    (∀ (files : List String) (only : Option (List String)),
        runCommandOnly (buildRunCommand files only) ≠ some []) := by
  refine ⟨?_, ?_, ?_, ?_⟩
  · intro ε files only responses h
    induction responses with
    | nil => simp at h
    | cons m rest ih =>
      cases m with
      | ready =>
        simp only [List.countP_cons, isReadyResponse] at h
        rw [if_pos trivial] at h
        have hnil := sentRunCommands_eq_nil files only rest (by omega)
        simp only [sentRunCommands] at hnil
        simp [sentRunCommands, List.filterMap_cons, hnil]
      | event d =>
        simp only [List.countP_cons, isReadyResponse] at h
        rw [if_neg (by simp)] at h
        simpa [sentRunCommands, List.filterMap_cons] using ih (by omega)
      | complete success =>
        simp only [List.countP_cons, isReadyResponse] at h
        rw [if_neg (by simp)] at h
        simpa [sentRunCommands, List.filterMap_cons] using ih (by omega)
      | error msg =>
        simp only [List.countP_cons, isReadyResponse] at h
        rw [if_neg (by simp)] at h
        simpa [sentRunCommands, List.filterMap_cons] using ih (by omega)
  · intro s request files
    cases hinc : request.includeItems with
    | none =>
      simp [buildOnlyFilter, hinc, buildRunCommand, runCommandOnly]
    | some items =>
      by_cases hlen : items.length = 0
      · have : items = [] := List.length_eq_zero.mp hlen
        subst this
        simp [buildOnlyFilter, hinc, buildRunCommand, runCommandOnly]
      · cases hfind : items.find? (isNonFileItem s) with
        | none =>
          have hany : items.any (isNonFileItem s) = false := by
            rw [List.any_eq_false]
            intro x hx
            intro hpx
            have := List.find?_isSome.mpr ⟨x, hx, hpx⟩
            rw [hfind] at this
            simp at this
          simp [buildOnlyFilter, hinc, hlen, hany, buildRunCommand, runCommandOnly, hfind]
        | some firstNestedItem =>
          have hany : items.any (isNonFileItem s) = true := by
            rw [List.any_eq_true]
            have := List.find?_isSome.mp (by rw [hfind]; rfl)
            obtain ⟨x, hx, hpx⟩ := this
            exact ⟨x, hx, hpx⟩
          simp only [buildOnlyFilter, hinc, hlen, hany, if_false, if_true, hfind,
            buildRunCommand, runCommandOnly]
          constructor
          · intro hne
            refine ⟨items, firstNestedItem, rfl, hfind, ?_⟩
            intro hempty
            rw [hempty] at hne
            simp at hne
          · rintro ⟨items', fn', hitems', hfind', hpath'⟩
            cases hitems'
            rw [hfind] at hfind'
            cases hfind'
            have : (buildTestPath s firstNestedItem).length > 0 :=
              List.length_pos.mpr hpath'
            simp [this]
  · intro s request files items firstNestedItem hinc hfind hpath
    have hlen : ¬ items.length = 0 := by
      intro h0
      have : items = [] := List.length_eq_zero.mp h0
      subst this
      simp at hfind
    have hany : items.any (isNonFileItem s) = true := by
      rw [List.any_eq_true]
      have := List.find?_isSome.mp (by rw [hfind]; rfl)
      obtain ⟨x, hx, hpx⟩ := this
      exact ⟨x, hx, hpx⟩
    have hlp : (buildTestPath s firstNestedItem).length > 0 := List.length_pos.mpr hpath
    simp [buildOnlyFilter, hinc, hlen, hany, hfind, buildRunCommand, runCommandOnly, hlp]
  · intro files only
    cases only with
    | none => simp [buildRunCommand, runCommandOnly]
    | some l =>
      by_cases hl : l.length > 0
      · simp only [buildRunCommand, runCommandOnly, hl, if_true]
        intro hc
        cases hc
        simp at hl
      · simp [buildRunCommand, runCommandOnly, hl]

/-- The suite `add` under file `"a"`, as created by a run of the spec's
scenario events. -/
def suiteItemAdd : TestItem :=
  { id := "f0::1::add", label := "add", uri := some "a", parentRef := some 0,
    childRefs := [2],
    data := some { kind := TestItemKind.suite, filePath := none, fullName := "add",
                   nestingLevel := 1, discovered := true } }

/-- The test `adds two numbers` under the suite `add`. -/
def testItemAdds : TestItem :=
  { id := "f0::1::add::2::adds two numbers", label := "adds two numbers",
    uri := some "a", parentRef := some 1, childRefs := [],
    data := some { kind := TestItemKind.test, filePath := none,
                   fullName := "adds two numbers", nestingLevel := 2, discovered := true } }

/-- Registry after the file `"a"` has run once and discovered
`add → adds two numbers`. -/
def regNested : TestItemRegistry :=
  { items := [{ fileItemA with childRefs := [1] }, suiteItemAdd, testItemAdds],
    rootRefs := [0],
    testItemMap := [("f0::1::add::2::adds two numbers", 2), ("f0::1::add", 1)] }

theorem single_run_command_with_only_field_iff_nested_selection_witness :
    sentRunCommands ["a"] (some ["add", "adds two numbers"])
        [RunnerResponse.ready (ε := Unit), RunnerResponse.complete true] =
      [buildRunCommand ["a"] (some ["add", "adds two numbers"])] ∧
    runCommandOnly
        (buildRunCommand ["a"] (buildOnlyFilter regNested { includeItems := some [2] })) =
      some (buildTestPath regNested 2) :=
  ⟨single_run_command_with_only_field_iff_nested_selection.1 Unit ["a"]
      (some ["add", "adds two numbers"])
      [RunnerResponse.ready, RunnerResponse.complete true] (by decide),
   (single_run_command_with_only_field_iff_nested_selection.2.2.1 regNested
      { includeItems := some [2] } ["a"] [2] 2 rfl (by decide) (by decide))⟩

/-- C10: in the run-everything branch of the functional
`getTestFilesToRun`, the accumulator is passed into
`collectFilesFromItem` *and* the returned list (which already embeds a
copy of that accumulator) is appended back, so with the two roots
`[file "a", folder [file "b"]]` the computed file list is
`["a", "a", "a", "b"]` — the path `"a"` is sent three times.  The class
variant (`testRunner.ts`), which guards every push with `includes`,
returns the duplicate-free `["a", "b"]` on the same tree, witnessing the
intended behavior. -/
theorem run_all_file_collection_duplicates_paths :
    getTestFilesToRunFunctional regFileAndFolder { includeItems := none } =
      ["a", "a", "a", "b"] ∧
    ¬ (getTestFilesToRunFunctional regFileAndFolder { includeItems := none }).Nodup ∧
    getTestFilesToRunClass regFileAndFolder { includeItems := none } = ["a", "b"] ∧
    (getTestFilesToRunClass regFileAndFolder { includeItems := none }).Nodup := by
  refine ⟨by decide, by decide, by decide, by decide⟩

/-- Synchronizer state with the file root open at slot 0 and nothing
else. -/
def syncFileOpen : SyncState := { reg := regOneFile, suiteStack := [some 0] }

/-- C6: a `pass` (or `fail`) at nesting 1 arriving with no prior `start`
at that nesting: when the parent slot `suiteStack[0]` is empty, the
functional handler evaluates `suiteStack[nesting - 1].id` through
`createTestId` on `undefined` and raises a TypeError instead of dropping
the event; the claimed drop-silently behavior holds in the other
no-matching-start case (open parent, no identity-index entry) and in the
class variant on the same input. -/
theorem pass_without_open_ancestor_raises_typeerror :
    handleTestPass syncStart
        { name := "t", nesting := 1, testType := none, skip := false, duration_ms := 1 } =
      .error JsError.typeError ∧
    handleTestFail syncStart
        { name := "t", nesting := 1, testType := none, skip := false, duration_ms := 1,
          error := { message := "boom", stack := none, cause := none } } =
      .error JsError.typeError ∧
    handleTestPass syncFileOpen
        { name := "t", nesting := 1, testType := none, skip := false, duration_ms := 1 } =
      .ok (syncFileOpen, []) ∧
    handleTestPassClass syncStart
        { name := "t", nesting := 1, testType := none, skip := false, duration_ms := 1 } =
      (syncStart, []) := by
  refine ⟨by decide, by decide, by decide, by decide⟩

/-- Registry after `start{t, nesting 1, test}` under the open file root. -/
def regWithTestT : TestItemRegistry :=
  (createOrGetTestItem regOneFile 0 "t" 1 TestItemKind.test).2

def syncWithTestT : SyncState := { reg := regWithTestT, suiteStack := [some 0] }

/-- A wire-delivered failing error: `message:"boom"`, a stack, and a
wrapped cause `{message:"root cause"}` which, having come out of
`JSON.parse`, is a plain object and not an `Error` instance. -/
def wireErrorWithCause : JsErrorValue :=
  { message := "boom", stack := some "at f (a.js:1:2)",
    cause := some { isErrorInstance := false, message := "root cause" } }

/-- The same error as it would look were the cause a live `Error`
instance (possible only in-process, never through the JSON protocol). -/
def liveErrorWithCause : JsErrorValue :=
  { message := "boom", stack := some "at f (a.js:1:2)",
    cause := some { isErrorInstance := true, message := "root cause" } }

/-- C8: for a `fail` event whose error carries `message:"boom"` and a
wrapped cause with `message:"root cause"`, the handler displays `"boom"`,
not the cause's message: the cause-preference branch is guarded by
`error.cause instanceof Error`, which a JSON-deserialized cause never
satisfies.  The original stack is attached either way, and the guarded
branch does surface `"root cause"` for a genuine `Error`-instance cause —
unreachable for events delivered over the protocol. -/
theorem wrapped_cause_message_not_surfaced_for_wire_events :
    handleTestFail syncWithTestT
        { name := "t", nesting := 1, testType := none, skip := false, duration_ms := 3,
          error := wireErrorWithCause } =
      .ok (syncWithTestT,
        [RunReport.failed 1
          { message := "boom", stackSource := some "at f (a.js:1:2)" } 3]) ∧
    extractErrorMessage wireErrorWithCause = "boom" ∧
    extractErrorMessage wireErrorWithCause ≠ "root cause" ∧
    buildTestMessage wireErrorWithCause =
      { message := "boom", stackSource := some "at f (a.js:1:2)" } ∧
    extractErrorMessage liveErrorWithCause = "root cause" := by
  refine ⟨by decide, by decide, by decide, by decide, by decide⟩

/-- The event sequence that starts the same (parent, 1, "x") key first as
a test and then as a suite. -/
def doubleKindEvents : List BeartestEvent :=
  [ BeartestEvent.start { name := "a", nesting := 0, testType := none },
    BeartestEvent.start { name := "x", nesting := 1, testType := some BeartestTestType.test },
    BeartestEvent.start { name := "x", nesting := 1, testType := some BeartestTestType.suite } ]

/-- C9 counterexample: after `start{a,0}`, `start{x,1,test}`,
`start{x,1,suite}`, the third event re-uses the registry node created for
the key by the second event — whose recorded kind is `test` — and
installs it as `AncestorStack[1]`, because the installation guard tests
the event's declared kind, not the node's.  Slot 1 then holds a node of
kind `test`, refuting "every slot N > 0, when assigned, holds a suite
node". -/
theorem assigned_suite_slot_holds_test_kind_node :
    stackRead (applyEvents syncStart doubleKindEvents).1.suiteStack 1 = some 1 ∧
    ((getItem (applyEvents syncStart doubleKindEvents).1.reg 1).data.map
        fun d => d.kind) = some TestItemKind.test ∧
    ((getItem (applyEvents syncStart doubleKindEvents).1.reg 1).data.map
        fun d => d.kind) ≠ some TestItemKind.suite := by
  refine ⟨by decide, by decide, by decide⟩

theorem stackRead_eq_getElem? (st : List (Option Nat)) (i : Nat) :
    stackRead st i = (st[i]?).getD none := by
  simp [stackRead, List.getD]

theorem stackRead_stackWrite_self (st : List (Option Nat)) (i : Nat) (v : Nat) :
    stackRead (stackWrite st i v) i = some v := by
  rw [stackRead_eq_getElem?]
  unfold stackWrite
  by_cases h : i < st.length
  · rw [if_pos h, List.getElem?_set_self h]
    rfl
  · rw [if_neg h]
    have hlen : (st ++ List.replicate (i - st.length) (none : Option Nat)).length = i := by
      simp
      omega
    have hidx : (st ++ List.replicate (i - st.length) none ++ [some v])[i]? =
        some (some v) := by
      rw [List.getElem?_append_right (le_of_eq hlen)]
      simp [hlen]
    rw [hidx]
    rfl

theorem stackRead_stackWrite_ne (st : List (Option Nat)) (i j : Nat) (v : Nat)
    (h : j ≠ i) : stackRead (stackWrite st i v) j = stackRead st j := by
  rw [stackRead_eq_getElem?, stackRead_eq_getElem?]
  unfold stackWrite
  by_cases hi : i < st.length
  · rw [if_pos hi, List.getElem?_set_ne (fun hc => h hc.symm)]
  · rw [if_neg hi]
    by_cases hj : j < st.length
    · rw [List.getElem?_append_left (by simp; omega), List.getElem?_append_left hj]
    · by_cases hji : j < i
      · rw [List.getElem?_append_left (by simp; omega)]
        rw [List.getElem?_append_right (by omega), List.getElem?_replicate]
        rw [if_pos (by omega)]
        have : st[j]? = none := List.getElem?_eq_none (by omega)
        rw [this]
        rfl
      · have hgt : i < j := by omega
        have h1 : ((st ++ List.replicate (i - st.length) none) ++ [some v])[j]? = none :=
          List.getElem?_eq_none (by simp; omega)
        have h2 : st[j]? = none := List.getElem?_eq_none (by omega)
        rw [h1, h2]

/-- Whatever `findFileTestItem`'s search returns carries metadata of kind
`file`: the match condition requires `data?.type === "file"`. -/
theorem findFileTestItemGo_kind (s : TestItemRegistry) (fileName : String) :
    ∀ (fuel : Nat) (refs : List Nat) (r : Nat),
      findFileTestItemGo s fileName fuel refs = some r →
      ((getItem s r).data.map fun d => d.kind) = some TestItemKind.file := by
  intro fuel
  induction fuel with
  | zero =>
    intro refs r h
    simp [findFileTestItemGo] at h
  | succ n ih =>
    intro refs r h
    cases refs with
    | nil => simp [findFileTestItemGo] at h
    | cons ref rest =>
      simp only [findFileTestItemGo] at h
      split at h
      · rename_i hcond
        cases h
        rw [Bool.and_eq_true] at hcond
        simpa [beq_iff_eq] using hcond.1
      · split at h
        · rename_i found hfound
          cases h
          by_cases hc : (getItem s ref).childRefs.length > 0
          · rw [if_pos hc] at hfound
            exact ih _ _ hfound
          · rw [if_neg hc] at hfound
            exact absurd hfound (by simp)
        · exact ih _ _ h

theorem findFileTestItem_kind {s : TestItemRegistry} {fileName : String} {r : Nat}
    (h : findFileTestItem s fileName = some r) :
    ((getItem s r).data.map fun d => d.kind) = some TestItemKind.file :=
  findFileTestItemGo_kind s fileName _ _ r h

/-- `createOrGetTestItem` never changes the recorded kind of an existing
item: it only appends a fresh item and extends the parent's child list. -/
theorem createOrGetTestItem_preserves_kind (s : TestItemRegistry) (parentRef : Nat)
    (name : String) (nesting : Nat) (testType : TestItemKind) (r : Nat)
    (hfile : ((getItem s r).data.map fun d => d.kind) = some TestItemKind.file) :
    ((getItem (createOrGetTestItem s parentRef name nesting testType).2 r).data.map
        fun d => d.kind) = some TestItemKind.file := by
  have hrlen : r < s.items.length := by
    by_contra hge
    have hdum : getItem s r = dummyTestItem := by
      rw [getItem_eq_getElem?, List.getElem?_eq_none (by omega)]
      rfl
    rw [hdum] at hfile
    simp [dummyTestItem] at hfile
  cases h : mapGet s.testItemMap (createTestId (getItem s parentRef).id name nesting) with
  | some r' =>
    have hsame : (createOrGetTestItem s parentRef name nesting testType).2 = s := by
      unfold createOrGetTestItem
      simp only [h]
    rw [hsame]
    exact hfile
  | none =>
    unfold createOrGetTestItem
    simp only [h]
    rw [getItem_eq_getElem?]
    by_cases hpr : r = parentRef
    · subst hpr
      show ((((s.items ++ [_]).set r _))[r]?.getD dummyTestItem).data.map _ = _
      rw [List.getElem?_set_self (by simp; omega)]
      exact hfile
    · show ((((s.items ++ [_]).set parentRef _))[r]?.getD dummyTestItem).data.map _ = _
      rw [List.getElem?_set_ne (fun hc => hpr hc.symm),
        List.getElem?_append_left hrlen]
      rw [getItem_eq_getElem?] at hfile
      exact hfile

/-- Invariant: whenever `AncestorStack[0]` is occupied, it holds a node
whose recorded kind is `file`. -/
def slotZeroHoldsFile (st : SyncState) : Prop :=
  ∀ r, stackRead st.suiteStack 0 = some r →
    ((getItem st.reg r).data.map fun d => d.kind) = some TestItemKind.file

theorem handleTestStart_slotZero (st : SyncState) (d : TestStartData)
    (hP : slotZeroHoldsFile st) : slotZeroHoldsFile (handleTestStart st d).1 := by
  unfold slotZeroHoldsFile at *
  unfold handleTestStart
  split
  · split
    · rename_i fileItem hf
      intro r hr
      dsimp only at hr ⊢
      rw [stackRead_stackWrite_self] at hr
      cases hr
      exact findFileTestItem_kind hf
    · exact hP
  · rename_i h0
    split
    · exact hP
    · rename_i parent hp
      intro r hr
      dsimp only at hr ⊢
      by_cases hsuite : d.testType = some BeartestTestType.suite
      · rw [if_pos hsuite] at hr
        rw [stackRead_stackWrite_ne _ _ _ _ (fun hc => h0 hc.symm)] at hr
        exact createOrGetTestItem_preserves_kind _ _ _ _ _ _ (hP r hr)
      · rw [if_neg hsuite] at hr
        exact createOrGetTestItem_preserves_kind _ _ _ _ _ _ (hP r hr)

theorem handleTestPass_state (st : SyncState) (d : TestPassData)
    (res : SyncState × List RunReport) (h : handleTestPass st d = .ok res) :
    res.1 = st := by
  unfold handleTestPass at h
  split at h
  · split at h
    · cases h
      rfl
    · cases h
      rfl
  · split at h
    · exact absurd h (by simp)
    · cases h
      rfl
    · cases h
      rfl

theorem handleTestFail_state (st : SyncState) (d : TestFailData)
    (res : SyncState × List RunReport) (h : handleTestFail st d = .ok res) :
    res.1 = st := by
  unfold handleTestFail at h
  split at h
  · split at h
    · cases h
      rfl
    · cases h
      rfl
  · split at h
    · exact absurd h (by simp)
    · cases h
      rfl
    · cases h
      rfl

theorem applyEvents_slotZeroHoldsFile (st : SyncState) (events : List BeartestEvent)
    (hP : slotZeroHoldsFile st) : slotZeroHoldsFile (applyEvents st events).1 := by
  have H : ∀ (evs : List BeartestEvent) (acc : SyncState × List RunReport),
      slotZeroHoldsFile acc.1 →
      slotZeroHoldsFile (evs.foldl
        (fun acc ev =>
          match handleBeartestEvent acc.1 ev with
          | .ok (st', rs) => (st', acc.2 ++ rs)
          | .error _ => acc) acc).1 := by
    intro evs
    induction evs with
    | nil => intro acc h; exact h
    | cons ev rest ih =>
      intro acc hacc
      rw [List.foldl_cons]
      apply ih
      cases hev : handleBeartestEvent acc.1 ev with
      | error e => simpa [hev] using hacc
      | ok res =>
        obtain ⟨st', rs⟩ := res
        simp only [hev]
        cases ev with
        | start d =>
          have hstart : handleTestStart acc.1 d = (st', rs) := by
            simpa [handleBeartestEvent] using hev
          have hinv := handleTestStart_slotZero acc.1 d hacc
          rw [hstart] at hinv
          exact hinv
        | pass d =>
          have hst := handleTestPass_state acc.1 d (st', rs)
            (by simpa [handleBeartestEvent] using hev)
          dsimp only at hst ⊢
          rw [hst]
          exact hacc
        | fail d =>
          have hst := handleTestFail_state acc.1 d (st', rs)
            (by simpa [handleBeartestEvent] using hev)
          dsimp only at hst ⊢
          rw [hst]
          exact hacc
  exact H events (st, []) hP

/-- C9 (amended): slot 0, once assigned by a nesting-0 start, always holds
a node of recorded kind `file`; a start event at nesting > 0 that does not
declare kind `suite` (kind `test` or no kind) leaves the ancestor stack
entirely unchanged; and a deeper start never writes any slot other than
its own nesting level — so non-zero slots are assigned only by start
events declaring kind `suite` (whose registry node, per the
counterexample, may still record kind `test` if its key was first created
by a test start). -/
theorem slot_zero_file_and_test_starts_install_nothing
    (reg0 : TestItemRegistry) (events : List BeartestEvent) :
    slotZeroHoldsFile (applyEvents { reg := reg0, suiteStack := [] } events).1 ∧
    (∀ (st : SyncState) (d : TestStartData),
        d.nesting ≠ 0 → d.testType ≠ some BeartestTestType.suite →
        (handleTestStart st d).1.suiteStack = st.suiteStack) ∧
    (∀ (st : SyncState) (d : TestStartData) (n : Nat),
        d.nesting ≠ 0 → n ≠ d.nesting →
        stackRead (handleTestStart st d).1.suiteStack n = stackRead st.suiteStack n) := by
  refine ⟨?_, ?_, ?_⟩
  · apply applyEvents_slotZeroHoldsFile
    intro r hr
    simp [stackRead] at hr
  · intro st d h0 hsuite
    unfold handleTestStart
    rw [if_neg h0]
    cases hp : stackRead st.suiteStack (d.nesting - 1) with
    | none => rfl
    | some parent =>
      dsimp only
      rw [if_neg hsuite]
  · intro st d n h0 hn
    unfold handleTestStart
    rw [if_neg h0]
    cases hp : stackRead st.suiteStack (d.nesting - 1) with
    | none => rfl
    | some parent =>
      dsimp only
      by_cases hsuite : d.testType = some BeartestTestType.suite
      · rw [if_pos hsuite]
        exact stackRead_stackWrite_ne _ _ _ _ hn
      · rw [if_neg hsuite]

theorem slot_zero_file_and_test_starts_install_nothing_witness :
    ((getItem (applyEvents { reg := regOneFile, suiteStack := [] }
        doubleKindEvents).1.reg 0).data.map fun d => d.kind) = some TestItemKind.file ∧
    (handleTestStart syncStart
        { name := "x", nesting := 1, testType := some BeartestTestType.test }).1.suiteStack =
      syncStart.suiteStack ∧
    stackRead (handleTestStart syncFileOpen
        { name := "y", nesting := 2, testType := some BeartestTestType.suite }).1.suiteStack 0 =
      stackRead syncFileOpen.suiteStack 0 :=
  ⟨(slot_zero_file_and_test_starts_install_nothing regOneFile doubleKindEvents).1 0 (by decide),
   (slot_zero_file_and_test_starts_install_nothing regOneFile doubleKindEvents).2.1
     syncStart { name := "x", nesting := 1, testType := some BeartestTestType.test }
     (by decide) (by decide),
   (slot_zero_file_and_test_starts_install_nothing regOneFile doubleKindEvents).2.2
     syncFileOpen { name := "y", nesting := 2, testType := some BeartestTestType.suite }
     0 (by decide) (by decide)⟩

/-- A `fail` event at nesting 0 for the discovered file, with its skip
flag set. -/
def failSkipNesting0 : TestFailData :=
  { name := "a", nesting := 0, testType := none, skip := true, duration_ms := 5,
    error := { message := "boom", stack := none, cause := none } }

/-- C1 counterexample: a `fail` event (here at nesting 0, skip flag set)
is reported as `failed` with the extracted message — never as `skipped`
or `passed` — refuting the claim's "for every pass or fail event it
reports skipped ... otherwise passed". -/
theorem fail_event_reports_failed_not_skipped_or_passed :
    handleTestFail syncStart failSkipNesting0 =
      .ok (syncStart, [RunReport.failed 0 { message := "boom", stackSource := none } 5]) ∧
    handleTestFail syncStart failSkipNesting0 ≠ .ok (syncStart, [RunReport.skipped 0]) ∧
    handleTestFail syncStart failSkipNesting0 ≠ .ok (syncStart, [RunReport.passed 0 5]) := by
  refine ⟨by decide, by decide, by decide⟩

/-- C1 (amended): a `pass` or `fail` at nesting 0 resolves its target by
the file-item search over the discovered roots — the ancestor stack is
not consulted (the handler's result is invariant under replacing the
stack), and the state is left unchanged; a resolved `pass` (at any
nesting) reports `skipped` when the event's skip flag is set and
otherwise `passed` with the event's reported duration; a resolved `fail`
reports `failed`. -/
theorem nesting0_resolves_by_file_search_and_pass_reports_by_skip :
    (∀ (reg : TestItemRegistry) (stack : List (Option Nat)) (name : String)
        (ty : Option BeartestTestType) (skip : Bool) (dur : Nat),
        handleTestPass { reg := reg, suiteStack := stack }
            { name := name, nesting := 0, testType := ty, skip := skip,
              duration_ms := dur } =
          .ok ({ reg := reg, suiteStack := stack },
            match findFileTestItem reg name with
            | some fileItem =>
              [if skip then RunReport.skipped fileItem else RunReport.passed fileItem dur]
            | none => [])) ∧
    (∀ (reg : TestItemRegistry) (stack : List (Option Nat)) (name : String)
        (ty : Option BeartestTestType) (skip : Bool) (dur : Nat)
        (error : JsErrorValue),
        handleTestFail { reg := reg, suiteStack := stack }
            { name := name, nesting := 0, testType := ty, skip := skip,
              duration_ms := dur, error := error } =
          .ok ({ reg := reg, suiteStack := stack },
            match findFileTestItem reg name with
            | some fileItem => [RunReport.failed fileItem (buildTestMessage error) dur]
            | none => [])) ∧
    (∀ (reg : TestItemRegistry) (s1 s2 : List (Option Nat)) (d : TestPassData),
        d.nesting = 0 →
        (handleTestPass { reg := reg, suiteStack := s1 } d).map (fun p => p.2) =
          (handleTestPass { reg := reg, suiteStack := s2 } d).map (fun p => p.2)) ∧
    (∀ (st : SyncState) (d : TestPassData) (p t : Nat),
        d.nesting ≠ 0 →
        stackRead st.suiteStack (d.nesting - 1) = some p →
        mapGet st.reg.testItemMap
            (createTestId (getItem st.reg p).id d.name d.nesting) = some t →
        handleTestPass st d =
          .ok (st, [if d.skip then RunReport.skipped t
                    else RunReport.passed t d.duration_ms])) := by
  have hpass : ∀ (reg : TestItemRegistry) (stack : List (Option Nat)) (name : String)
      (ty : Option BeartestTestType) (skip : Bool) (dur : Nat),
      handleTestPass { reg := reg, suiteStack := stack }
          { name := name, nesting := 0, testType := ty, skip := skip,
            duration_ms := dur } =
        .ok ({ reg := reg, suiteStack := stack },
          match findFileTestItem reg name with
          | some fileItem =>
            [if skip then RunReport.skipped fileItem else RunReport.passed fileItem dur]
          | none => []) := by
    intro reg stack name ty skip dur
    unfold handleTestPass
    dsimp only
    rw [if_pos rfl]
    cases h : findFileTestItem reg name <;> simp [h]
  refine ⟨hpass, ?_, ?_, ?_⟩
  · intro reg stack name ty skip dur error
    unfold handleTestFail
    dsimp only
    rw [if_pos rfl]
    cases h : findFileTestItem reg name <;> simp [h]
  · intro reg s1 s2 d h0
    obtain ⟨name, nesting, ty, skip, dur⟩ := d
    dsimp only at h0
    subst h0
    rw [hpass reg s1 name ty skip dur, hpass reg s2 name ty skip dur]
    cases findFileTestItem reg name <;> rfl
  · intro st d p t h0 hp ht
    obtain ⟨reg, stack⟩ := st
    unfold handleTestPass
    dsimp only
    rw [if_neg h0]
    dsimp only at hp
    rw [hp]
    unfold getTestItem
    dsimp only at ht ⊢
    rw [ht]

theorem nesting0_resolves_by_file_search_and_pass_reports_by_skip_witness :
    handleTestPass { reg := regOneFile, suiteStack := [] }
        { name := "a", nesting := 0, testType := none, skip := true, duration_ms := 4 } =
      .ok ({ reg := regOneFile, suiteStack := [] },
        match findFileTestItem regOneFile "a" with
        | some fileItem =>
          [if true then RunReport.skipped fileItem else RunReport.passed fileItem 4]
        | none => []) ∧
    (handleTestPass { reg := regOneFile, suiteStack := [] }
        { name := "a", nesting := 0, testType := none, skip := false,
          duration_ms := 2 }).map (fun p => p.2) =
      (handleTestPass { reg := regOneFile, suiteStack := [some 0] }
        { name := "a", nesting := 0, testType := none, skip := false,
          duration_ms := 2 }).map (fun p => p.2) ∧
    handleTestPass syncWithTestT
        { name := "t", nesting := 1, testType := none, skip := false, duration_ms := 7 } =
      .ok (syncWithTestT,
        [if false then RunReport.skipped 1 else RunReport.passed 1 7]) :=
  ⟨nesting0_resolves_by_file_search_and_pass_reports_by_skip.1 regOneFile [] "a" none true 4,
   nesting0_resolves_by_file_search_and_pass_reports_by_skip.2.2.1 regOneFile [] [some 0]
     { name := "a", nesting := 0, testType := none, skip := false, duration_ms := 2 } rfl,
   nesting0_resolves_by_file_search_and_pass_reports_by_skip.2.2.2 syncWithTestT
     { name := "t", nesting := 1, testType := none, skip := false, duration_ms := 7 }
     0 1 (by decide) (by decide) (by decide)⟩
